import Mathlib

/-!
Verification development for the `asa_facts` fact-gathering module
(`lib/ansible/modules/network/asa/asa_facts.py`).

The development shallowly embeds:
* the gather-subset resolver of `main` (source lines 426-455),
* the fact merging, key prefixing and result assembly of `main`
  (source lines 457-473),
* the `Default.populate` collector together with its regex parsers
  (source lines 177-239), and
* `Interfaces.parse_interfaces` (source lines 340-353).

Python regular expressions are embedded as Lean functions over `List Char`
that implement the exact backtracking behaviour of the concrete patterns
used by the module.  The character classes `\s` and `\w` are modelled by
their ASCII parts (device CLI output is ASCII).  Python `dict`s are
modelled as association lists with insertion-order update semantics, and
Python `set`s as `Finset String`.  A call to `module.fail_json` aborts the
run and is modelled as `Except.error` with the message passed to it.
-/

deriving instance DecidableEq for Except

/-- The keys of `FACT_SUBSETS` (source lines 397-405). -/
def VALID_SUBSETS : Finset String :=
  {"default", "hardware", "interfaces", "config", "failover"}

/-- The two accumulator sets of the resolution loop of `main`
(source lines 426-427). -/
structure ResState where
  runable_subsets : Finset String
  exclude_subsets : Finset String
deriving DecidableEq

/-- Python `subset.startswith('!')`: the first character is `'!'`.
(Defined on the character list so that it evaluates inside the kernel;
`String.startsWith` with a one-character pattern has the same meaning.) -/
def startsBang (s : String) : Bool :=
  match s.data with
  | '!' :: _ => true
  | _ => false

/-- Python `subset[1:]`: the string without its first character. -/
def strTail (s : String) : String := String.mk (s.data.drop 1)

/-- One iteration of the `for subset in gather_subset` loop of `main`
(source lines 429-449).  `module.fail_json(msg='Bad subset')` is modelled
as `Except.error "Bad subset"`. -/
def processToken (st : ResState) (subset : String) : Except String ResState :=
  if subset = "all" then
    .ok { st with runable_subsets := st.runable_subsets ∪ VALID_SUBSETS }
  else if startsBang subset then
    let s := strTail subset
    if s = "all" then
      .ok { st with exclude_subsets := st.exclude_subsets ∪ VALID_SUBSETS }
    else if s ∈ VALID_SUBSETS then
      .ok { st with exclude_subsets := insert s st.exclude_subsets }
    else
      .error "Bad subset"
  else if subset ∈ VALID_SUBSETS then
    .ok { st with runable_subsets := insert subset st.runable_subsets }
  else
    .error "Bad subset"

/-- Tokens that the loop body accepts without calling `fail_json`;
mirrors the branch structure of `processToken` (whose success is
independent of the accumulated state). -/
def validToken (t : String) : Bool :=
  if t = "all" then true
  else if startsBang t then
    let s := strTail t
    if s = "all" then true else decide (s ∈ VALID_SUBSETS)
  else decide (t ∈ VALID_SUBSETS)

/-- The complete subset resolution of `main` (source lines 426-455):
the token loop, the default-include-everything step
(`if not runable_subsets: runable_subsets.update(VALID_SUBSETS)`),
the exclusion (`runable_subsets.difference_update(exclude_subsets)`) and
the forced baseline (`runable_subsets.add('default')`). -/
def resolveTokens (tokens : List String) : Except String (Finset String) :=
  match tokens.foldlM processToken ⟨∅, ∅⟩ with
  | .error e => .error e
  | .ok st =>
      let runable :=
        if st.runable_subsets = ∅ then VALID_SUBSETS else st.runable_subsets
      .ok (insert "default" (runable \ st.exclude_subsets))

example : resolveTokens ["!default"] = .ok VALID_SUBSETS := by decide
example : resolveTokens ["!hardware"] =
    .ok (VALID_SUBSETS \ {"hardware"}) := by decide
example : resolveTokens ["default", "!default"] = .ok {"default"} := by decide
example : resolveTokens ["!all", "config"] = .ok {"default"} := by decide
example : resolveTokens ["bogus"] = .error "Bad subset" := by decide
example : resolveTokens ["all"] = .ok VALID_SUBSETS := by decide
example : resolveTokens ["config"] = .ok {"default", "config"} := by decide

/-- Values stored in the module's fact dictionaries.  `null` is Python's
`None` (what a parser returns when its regex finds no match); `ifaceDict`
is the nested per-interface mapping built by `Interfaces.populate`. -/
inductive FactValue where
  | null : FactValue
  | str : String → FactValue
  | bool : Bool → FactValue
  | strList : List String → FactValue
  | ifaceDict : List (String × List (String × Option String)) → FactValue
deriving DecidableEq

/-- Lookup in a Python dict modelled as an association list. -/
def getVal (k : String) : List (String × FactValue) → Option FactValue
  | [] => none
  | p :: rest => if p.1 = k then some p.2 else getVal k rest

/-- Python `d[k] = v`: replace the value of an existing key in place,
otherwise append the new binding (insertion-order semantics). -/
def setKey (d : List (String × FactValue)) (k : String) (v : FactValue) :
    List (String × FactValue) :=
  if getVal k d ≠ none then
    d.map (fun p => if p.1 = k then (k, v) else p)
  else
    d ++ [(k, v)]

/-- Python `d.update(new)` (source line 466: `facts.update(inst.facts)`). -/
def dictUpdate (d new : List (String × FactValue)) :
    List (String × FactValue) :=
  new.foldl (fun acc p => setKey acc p.1 p.2) d

/-- The fact accumulation of `main` (source lines 457-466):
`facts['gather_subset'] = list(runable_subsets)` followed by
`facts.update(inst.facts)` for each collector instance, in iteration
order of `runable_subsets`.  `order` is the iteration order of the
Python set and `m` gives each collector's partial fact mapping. -/
def mergeFacts (order : List String)
    (m : String → List (String × FactValue)) : List (String × FactValue) :=
  order.foldl (fun acc a => dictUpdate acc (m a))
    [("gather_subset", FactValue.strList order)]

/-- The namespacing loop of `main` (source lines 468-471):
`ansible_facts['ansible_net_%s' % key] = value` for every fact. -/
def prefixFacts (facts : List (String × FactValue)) :
    List (String × FactValue) :=
  facts.map (fun p => ("ansible_net_" ++ p.1, p.2))

/-- The payload of `module.exit_json(ansible_facts=..., warnings=warnings)`
(source line 473). -/
structure ModuleResult where
  ansible_facts : List (String × FactValue)
  warnings : List String
deriving DecidableEq

/-- Result assembly of `main` (source lines 457-473).  The module-level
`warnings` list (source lines 407-408) is initialised empty and never
appended to in this module. -/
def buildResult (order : List String)
    (m : String → List (String × FactValue)) : ModuleResult :=
  ⟨prefixFacts (mergeFacts order m), []⟩

/-- The whole of `main` after argument parsing: resolve the subset tokens,
then run and merge the collectors.  `enumSet` models the (otherwise
unspecified) iteration order of the resolved Python set and `m` the
partial fact mapping produced by each collector's `populate`. -/
def mainRun (gather : List String) (enumSet : Finset String → List String)
    (m : String → List (String × FactValue)) : Except String ModuleResult :=
  match resolveTokens gather with
  | .error e => .error e
  | .ok resolved => .ok (buildResult (enumSet resolved) m)

/-- The ASCII part of the Python regex class `\s`. -/
def isPySpace (c : Char) : Bool :=
  c = ' ' || c = '\t' || c = '\n' || c = '\r' || c = '\x0b' || c = '\x0c'

/-- The ASCII part of the Python regex class `\w`. -/
def isWordChar (c : Char) : Bool := c.isAlphanum || c = '_'

/-- Python `re.search` driver: try the tail matcher after every occurrence
of a literal marker, scanning positions left to right exactly as the
regex engine scans the leftmost match of a pattern that starts with a
literal. -/
def scanFor (marker : List Char) (tail : List Char → Option String) :
    List Char → Option String
  | [] => none
  | c :: rest =>
      match
        (if marker.isPrefixOf (c :: rest) then
          tail ((c :: rest).drop marker.length)
        else none) with
      | some v => some v
      | none => scanFor marker tail rest

/-- Continuation `(?:,\s|\s)` of the version pattern: a comma followed by
whitespace, or a single whitespace character. -/
def versionDelim (l : List Char) : Bool :=
  match l with
  | ',' :: d :: _ => isPySpace d || isPySpace ','
  | c :: _ => isPySpace c
  | [] => false

/-- Lazy `(\S+?)` of the version pattern: the shortest non-empty run of
non-whitespace characters after which `(?:,\s|\s)` matches.  `acc` holds
the (reversed) characters captured so far. -/
def versionGo (acc : List Char) : List Char → Option String
  | [] => none
  | c :: rest =>
      if versionDelim (c :: rest) then some (String.mk acc.reverse)
      else if isPySpace c then none
      else versionGo (c :: acc) rest

/-- Entry to the lazy capture: the first captured character must be
non-whitespace. -/
def versionAfter : List Char → Option String
  | [] => none
  | c :: rest => if isPySpace c then none else versionGo [c] rest

/-- `Default.parse_version` (source lines 197-200):
`re.search(r'Version (\S+?)(?:,\s|\s)', data)`. -/
def parse_version (data : String) : Option String :=
  scanFor ("Version ".data) versionAfter data.data

/-- Python `data.split('\n')`, and the line decomposition used by `^`/`$`
in `re.M` patterns. -/
def splitLinesAux (cur : List Char) : List Char → List (List Char)
  | [] => [cur.reverse]
  | c :: rest =>
      if c = '\n' then cur.reverse :: splitLinesAux [] rest
      else splitLinesAux (c :: cur) rest

def splitLines (l : List Char) : List (List Char) := splitLinesAux [] l

/-- First line (top to bottom) on which a line matcher succeeds: the
leftmost-match rule for an `re.M` pattern anchored with `^`. -/
def firstLineMatch (f : List Char → Option String) :
    List (List Char) → Option String
  | [] => none
  | x :: xs =>
      match f x with
      | some v => some v
      | none => firstLineMatch f xs

/-- Prefix of `l` before the rightmost occurrence of `marker`
(`none` when `marker` does not occur).  This is what a greedy `(.+)`
followed by a literal captures. -/
def rightSplit (marker : List Char) : List Char → Option (List Char)
  | [] => none
  | c :: rest =>
      match rightSplit marker rest with
      | some p => some (c :: p)
      | none => if marker.isPrefixOf (c :: rest) then some [] else none

/-- One line of `Default.parse_hostname`: `^(.+) up` — a greedy `(.+)`
captures everything before the last " up" on the line, and must be
non-empty. -/
def hostnameLine (l : List Char) : Option String :=
  match rightSplit (" up".data) l with
  | some [] => none
  | some p => some (String.mk p)
  | none => none

/-- `Default.parse_hostname` (source lines 202-205):
`re.search(r'^(.+) up', data, re.M)`. -/
def parse_hostname (data : String) : Option String :=
  firstLineMatch hostnameLine (splitLines data.data)

/-- Tail of `Default.parse_model` after the literal `Hardware:`:
`\s+(\w+), ` — at least one whitespace character, then a maximal
non-empty run of word characters, then the literal ", ". -/
def modelAfter : List Char → Option String
  | [] => none
  | c :: rest =>
      if ¬ isPySpace c then none
      else
        let l1 := (c :: rest).dropWhile isPySpace
        match l1.takeWhile isWordChar with
        | [] => none
        | w =>
            match l1.drop w.length with
            | ',' :: ' ' :: _ => some (String.mk w)
            | _ => none

/-- `Default.parse_model` (source lines 207-210):
`re.search(r'Hardware:\s+(\w+), ', data)`. -/
def parse_model (data : String) : Option String :=
  scanFor ("Hardware:".data) modelAfter data.data

/-- Tail of `Default.parse_image` after the literal `image file is "`:
a greedy `(.+)` followed by `"` captures everything up to the last
double quote on the same line, and must be non-empty. -/
def imageAfter (l : List Char) : Option String :=
  match rightSplit ['"'] (l.takeWhile (fun c => c ≠ '\n')) with
  | some [] => none
  | some p => some (String.mk p)
  | none => none

/-- `Default.parse_image` (source lines 212-215):
`re.search(r'image file is "(.+)"', data)`. -/
def parse_image (data : String) : Option String :=
  scanFor ("image file is \"".data) imageAfter data.data

/-- Greedy `(\S+)`: the maximal non-empty run of non-whitespace
characters at the current position. -/
def capNonSpace (l : List Char) : Option String :=
  match l.takeWhile (fun c => !(isPySpace c)) with
  | [] => none
  | w => some (String.mk w)

/-- `Default.parse_serialnum` (source lines 217-220):
`re.search(r'Serial Number: (\S+)', data)`. -/
def parse_serialnum (data : String) : Option String :=
  scanFor ("Serial Number: ".data) capNonSpace data.data

/-- `Default.parse_asdm_version` (source lines 222-225):
`re.search(r'Device Manager Version (\S+)', data)`. -/
def parse_asdm_version (data : String) : Option String :=
  scanFor ("Device Manager Version ".data) capNonSpace data.data

/-- Greedy `(.+)` with nothing after it: the rest of the current line,
which must be non-empty. -/
def capRestOfLine (l : List Char) : Option String :=
  match l.takeWhile (fun c => c ≠ '\n') with
  | [] => none
  | w => some (String.mk w)

/-- `Default.parse_asdm_image` (source lines 227-230):
`re.search(r'Device Manager image file, (.+)', data)`. -/
def parse_asdm_image (data : String) : Option String :=
  scanFor ("Device Manager image file, ".data) capRestOfLine data.data

/-- Tail of the two `parse_stacks` patterns after their literal prefix:
`\s+: (\S+)` — at least one whitespace character (greedy, may cross
lines), the literal ": ", then a maximal non-empty run of
non-whitespace characters. -/
def stacksTail : List Char → Option String
  | [] => none
  | c :: rest =>
      if ¬ isPySpace c then none
      else
        match (c :: rest).dropWhile isPySpace with
        | ':' :: ' ' :: l2 =>
            match l2.takeWhile (fun d => !(isPySpace d)) with
            | [] => none
            | w => some (String.mk w)
        | _ => none

/-- Python `re.findall` driver for the `re.M` patterns of `parse_stacks`:
collect the captures of every match whose literal marker sits at a line
start.  (For these patterns two matches can never overlap — a line-start
occurrence of the marker cannot begin inside the whitespace run, the
": " or the `\S+` capture of a previous match — so scanning every
position is equivalent to `re.findall`'s scan that resumes after each
match.) -/
def findallLS (marker : List Char) (tail : List Char → Option String) :
    Bool → List Char → List String
  | _, [] => []
  | atLS, c :: rest =>
      match
        (if atLS && marker.isPrefixOf (c :: rest) then
          tail ((c :: rest).drop marker.length)
        else none) with
      | some w => w :: findallLS marker tail (c = '\n') rest
      | none => findallLS marker tail (c = '\n') rest

/-- First half of `Default.parse_stacks` (source lines 232-235):
`re.findall(r'^Model number\s+: (\S+)', data, re.M)`. -/
def parse_stacked_models (data : String) : List String :=
  findallLS ("Model number".data) stacksTail true data.data

/-- Second half of `Default.parse_stacks` (source lines 237-239):
`re.findall(r'^System serial number\s+: (\S+)', data, re.M)`. -/
def parse_stacked_serialnums (data : String) : List String :=
  findallLS ("System serial number".data) stacksTail true data.data

/-- A parser result stored into `self.facts`: a missing match stores
Python `None`. -/
def optToVal : Option String → FactValue
  | some s => .str s
  | none => .null

/-- `Default.populate` (source lines 184-195): with `r0` the response to
`show version` and `r1` the response to `show asdm image`.  Note that
when `r0` is non-empty every one of the seven fact keys is assigned the
parser's result even when the parser found no match (Python `None`),
while `parse_stacks` assigns its keys only on a non-empty `findall`. -/
def default_populate (r0 r1 : String) : List (String × FactValue) :=
  if r0 = "" then []
  else
    let base : List (String × FactValue) :=
      [("version", optToVal (parse_version r0)),
       ("hostname", optToVal (parse_hostname r0)),
       ("model", optToVal (parse_model r0)),
       ("image", optToVal (parse_image r0)),
       ("serialnum", optToVal (parse_serialnum r0)),
       ("asdm_version", optToVal (parse_asdm_version r0)),
       ("asdm_image", optToVal (parse_asdm_image r1))]
    let base1 :=
      match parse_stacked_models r0 with
      | [] => base
      | ms => base ++ [("stacked_models", FactValue.strList ms)]
    match parse_stacked_serialnums r0 with
    | [] => base1
    | ss => base1 ++ [("stacked_serialnums", FactValue.strList ss)]

example : parse_version "Cisco Adaptive Security Appliance Software Version 9.1(7)29, and more" = some "9.1(7)29" := by decide
example : parse_version "x" = none := by decide
example : parse_hostname "asa5510 up 100 days" = some "asa5510" := by decide
example : parse_model "Hardware:   ASA5510, 256 MB RAM" = some "ASA5510" := by decide
example : parse_serialnum "Serial Number: JMX123" = some "JMX123" := by decide
example : parse_image "image file is \"disk0:/asa917-k8.bin\"" = some "disk0:/asa917-k8.bin" := by decide
example : parse_stacked_models "Model number    : WS-C3750\nx" = ["WS-C3750"] := by decide

/-- Occurrence of the word `w` with `\b` boundaries somewhere in the
remaining text; `prev` is the character just before the current
position (`none` at the start of the text). -/
def hasWordFrom (w : List Char) : Option Char → List Char → Bool
  | _, [] => false
  | prev, c :: rest =>
      (w.isPrefixOf (c :: rest)
        && (match prev with
            | none => true
            | some p => !(isWordChar p))
        && (match (c :: rest).drop w.length with
            | [] => true
            | d :: _ => !(isWordChar d)))
      || hasWordFrom w (some c) rest

/-- The lookahead `(?=.*\bInterface\b)` of the two patterns of
`Interfaces.parse_interfaces`: the line contains the word
`Interface` with word boundaries. -/
def hasWordInterface (l : List Char) : Bool :=
  hasWordFrom ("Interface".data) none l

/-- Trailing whitespace removed: what the greedy `(.*\S+)` leaves out. -/
def rtrimSpaces (l : List Char) : List Char :=
  (l.reverse.dropWhile isPySpace).reverse

/-- The two header-line matches of `Interfaces.parse_interfaces`
(source lines 349-352):
`re.match(r'^(?=.*\bInterface\b)(?:\S+ )(\S+)', line)` and
`re.match(r'^(?=.*\bInterface\b)(?:\S+ )(.*\S+)', line)`.
Both require the word `Interface` somewhere on the line and the line to
start with a non-empty run of non-whitespace characters followed by one
literal space and a non-whitespace character.  The first captures the
maximal `\S+` run after that space (the new dict key), the second the
rest of the line with trailing whitespace removed (the stored value).
When the first pattern matches, the second always does too. -/
def matchHeader (line : List Char) : Option (String × String) :=
  if hasWordInterface line then
    match line.takeWhile (fun c => !(isPySpace c)) with
    | [] => none
    | tok =>
        match line.drop tok.length with
        | ' ' :: c :: rest1 =>
            if isPySpace c then none
            else
              some (String.mk ((c :: rest1).takeWhile (fun d => !(isPySpace d))),
                    String.mk (rtrimSpaces (c :: rest1)))
        | _ => none
  else none

/-- Association-list operations for the `parsed` dict (string values). -/
def getValS (k : String) : List (String × String) → Option String
  | [] => none
  | p :: rest => if p.1 = k then some p.2 else getValS k rest

def setKeyS (d : List (String × String)) (k : String) (v : String) :
    List (String × String) :=
  if getValS k d ≠ none then
    d.map (fun p => if p.1 = k then (k, v) else p)
  else
    d ++ [(k, v)]

/-- The loop state of `Interfaces.parse_interfaces`: the `parsed` dict
and the current `key` (initially the empty string, source line 342). -/
structure IfState where
  parsed : List (String × String)
  key : String
deriving DecidableEq

/-- One iteration of the `for line in data.split('\n')` loop of
`Interfaces.parse_interfaces` (source lines 343-352).  A continuation
line (first character tab or space) executes
`parsed[key] += '\n%s' % line`, which raises `KeyError` when `key` is
not yet a key of `parsed`; this is modelled as `Except.error`. -/
def ifStep (st : IfState) (line : String) : Except String IfState :=
  if line.data = [] then .ok st
  else if line.data.head? = some '\t' ∨ line.data.head? = some ' ' then
    match getValS st.key st.parsed with
    | some v => .ok ⟨setKeyS st.parsed st.key (v ++ "\n" ++ line), st.key⟩
    | none => .error "KeyError"
  else
    match matchHeader line.data with
    | some kv => .ok ⟨setKeyS st.parsed kv.1 kv.2, kv.1⟩
    | none => .ok st

/-- `Interfaces.parse_interfaces` (source lines 340-353). -/
def parse_interfaces (data : String) : Except String (List (String × String)) :=
  match (splitLines data.data).foldlM
      (fun st l => ifStep st (String.mk l)) (IfState.mk [] "") with
  | .ok st => .ok st.parsed
  | .error e => .error e

example : parse_interfaces "Interface Ethernet0/0 \"outside\", is up\n  MAC address 0123\n" =
    .ok [("Ethernet0/0", "Ethernet0/0 \"outside\", is up\n  MAC address 0123")] := by decide
example : parse_interfaces " foo" = .error "KeyError" := by decide
example : parse_interfaces "\tindented first line\nInterface Ethernet0/0 x" = .error "KeyError" := by decide

lemma except_bind_ok {α β γ : Type} (a : α) (f : α → Except γ β) :
    (Except.ok a >>= f) = f a := rfl

/-- C1: for every token list on which resolution succeeds, the resolved
set contains the baseline collector name "default" (the unconditional
`runable_subsets.add('default')` of source line 455). -/
theorem claim_C1 (tokens : List String) (R : Finset String)
    (h : resolveTokens tokens = .ok R) : "default" ∈ R := by
  unfold resolveTokens at h
  cases hf : tokens.foldlM processToken ⟨∅, ∅⟩ with
  | error e => rw [hf] at h; exact absurd h (by simp)
  | ok st =>
      rw [hf] at h
      simp only [Except.ok.injEq] at h
      rw [← h]
      exact Finset.mem_insert_self _ _

theorem claim_C1_witness : "default" ∈ VALID_SUBSETS :=
  claim_C1 [] VALID_SUBSETS (by decide)

/-- C9: the token list `["!default"]` resolves successfully to the full
set of valid collector names: the exclusion of the baseline leaves no
positive inclusion, the default-include-everything step fires, and the
forced baseline add overrides the exclusion of "default". -/
theorem claim_C9 : resolveTokens ["!default"] = .ok VALID_SUBSETS := by decide

/-- C5 counterexample: the token list `["bogus"]` fails with the fixed
message "Bad subset", which does not reference (contain) the offending
token "bogus", contradicting the claim that the error carries it. -/
theorem claim_C5_cex :
    resolveTokens ["bogus"] = .error "Bad subset" ∧
    ¬ ("bogus".data <:+: "Bad subset".data) := by decide

/-- C5 amended: a token naming an unknown collector makes the whole run
fail with the fixed error message "Bad subset" (which does not name the
token), and no facts are returned. -/
theorem claim_C5 (enumSet : Finset String → List String)
    (m : String → List (String × FactValue)) :
    mainRun ["bogus"] enumSet m = .error "Bad subset" := by
  unfold mainRun
  rw [show resolveTokens ["bogus"] = .error "Bad subset" from by decide]

/-- C7: evaluation of the code at the failing input.  A response to
`show interface` whose first non-empty line starts with whitespace makes
`Interfaces.parse_interfaces` execute `parsed[''] += ...` before any key
exists, raising an uncaught `KeyError` — collector-level parsing is not
total, contradicting the claim (and the spec's stated intent) that only
transport-level and subset-validation failures abort the run. -/
theorem claim_C7 : parse_interfaces " foo" = .error "KeyError" := by decide

/-- C6 counterexample: on the non-empty response "x" every parser of the
`Default` collector finds no match, yet the fact key "version" is not
omitted — it is present and bound to Python `None` — and the partial
mapping is not empty (it holds all seven keys bound to `None`). -/
theorem claim_C6_cex :
    parse_version "x" = none ∧
    getVal "version" (default_populate "x" "y") = some FactValue.null ∧
    default_populate "x" "y" ≠ [] := by decide

/-- C6 amended: when the `Default` collector's response to `show version`
is non-empty and a parser (here `parse_version`) finds no match, the
fact key is still present, bound to a null value, and the collector
yields a non-empty partial mapping; no error is raised (the populate
function is total). -/
theorem claim_C6 (r0 r1 : String) (h : r0 ≠ "")
    (hv : parse_version r0 = none) :
    getVal "version" (default_populate r0 r1) = some FactValue.null ∧
    default_populate r0 r1 ≠ [] := by
  unfold default_populate
  rw [if_neg h]
  cases hm : parse_stacked_models r0 <;>
    cases hs : parse_stacked_serialnums r0 <;>
      simp only [hm, hs] <;> simp [getVal, hv, optToVal]

theorem claim_C6_witness :
    getVal "version" (default_populate "x" "y") = some FactValue.null ∧
    default_populate "x" "y" ≠ [] :=
  claim_C6 "x" "y" (by decide) (by decide)

/-- C2 counterexample: for the baseline name itself the exclusion does
not win — the token list `["default", "!default"]` resolves to
`{"default"}`, which still contains "default" (the forced baseline add
of source line 455 runs after the set difference of line 454). -/
theorem claim_C2_cex :
    resolveTokens ["default", "!default"] = .ok {"default"} ∧
    "default" ∈ ({"default"} : Finset String) := by decide

/-- Collector mapping assigning the empty partial mapping to every
collector (used to instantiate C4). -/
def mExEmpty : String → List (String × FactValue) := fun _ => []

/-- C4 counterexample: two iteration orders of the same resolved
collector set (Python's set iteration order is not specified and varies
with string hash randomization) produce different final fact mappings —
the reported `gather_subset` list differs — so the output is not
uniquely determined by the resolved set and the partial mappings. -/
theorem claim_C4_cex :
    (["default", "hardware"].Perm ["hardware", "default"]) ∧
    mergeFacts ["default", "hardware"] mExEmpty ≠
      mergeFacts ["hardware", "default"] mExEmpty := by decide

lemma valid_mem_cases (s : String) (hs : s ∈ VALID_SUBSETS) :
    s = "default" ∨ s = "hardware" ∨ s = "interfaces" ∨ s = "config" ∨
      s = "failover" := by
  simpa [VALID_SUBSETS] using hs

lemma valid_not_bang (s : String) (hs : s ∈ VALID_SUBSETS) :
    startsBang s = false := by
  rcases valid_mem_cases s hs with h | h | h | h | h <;> subst h <;> decide

lemma bang_props (s : String) (hs : s ∈ VALID_SUBSETS) :
    startsBang ("!" ++ s) = true ∧ strTail ("!" ++ s) = s := by
  rcases valid_mem_cases s hs with h | h | h | h | h <;> subst h <;>
    exact ⟨by decide, by decide⟩

/-- Characterisation of the token loop of `main` on valid token lists:
the loop succeeds, a name is runable iff it is valid and some token
includes it (`all` or the name itself), and a name is excluded iff it is
valid and some negation token excludes it (`!all` or its own negation). -/
lemma foldl_char (tokens : List String) :
    ∀ st0 : ResState, (∀ t ∈ tokens, validToken t = true) →
      ∃ st : ResState,
        tokens.foldlM processToken st0 = .ok st ∧
        (∀ s, s ∈ st.runable_subsets ↔
          s ∈ st0.runable_subsets ∨
            (s ∈ VALID_SUBSETS ∧ ∃ t ∈ tokens, t = "all" ∨ t = s)) ∧
        (∀ s, s ∈ st.exclude_subsets ↔
          s ∈ st0.exclude_subsets ∨
            (s ∈ VALID_SUBSETS ∧
              ∃ t ∈ tokens, startsBang t = true ∧
                (strTail t = "all" ∨ strTail t = s))) := by
  induction tokens with
  | nil => intro st0 _; exact ⟨st0, rfl, by simp, by simp⟩
  | cons t rest ih =>
    intro st0 h
    have ht : validToken t = true := h t (by simp)
    have hrest : ∀ x ∈ rest, validToken x = true := fun x hx => h x (by simp [hx])
    by_cases h1 : t = "all"
    · subst h1
      obtain ⟨st, hf, hr, he⟩ :=
        ih { st0 with runable_subsets := st0.runable_subsets ∪ VALID_SUBSETS }
          hrest
      refine ⟨st, ?_, ?_, ?_⟩
      · rw [List.foldlM_cons,
          show processToken st0 "all" =
            .ok { st0 with
              runable_subsets := st0.runable_subsets ∪ VALID_SUBSETS } from
            by simp [processToken],
          except_bind_ok]
        exact hf
      · intro s
        rw [hr s]
        simp only [Finset.mem_union, List.mem_cons]
        constructor
        · rintro ((hs | hs) | ⟨hsv, t9, ht9, hp⟩)
          · exact Or.inl hs
          · exact Or.inr ⟨hs, "all", Or.inl rfl, Or.inl rfl⟩
          · exact Or.inr ⟨hsv, t9, Or.inr ht9, hp⟩
        · rintro (hs | ⟨hsv, t9, (rfl | ht9), hp⟩)
          · exact Or.inl (Or.inl hs)
          · exact Or.inl (Or.inr hsv)
          · exact Or.inr ⟨hsv, t9, ht9, hp⟩
      · intro s
        rw [he s]
        simp only [List.mem_cons]
        constructor
        · rintro (hs | ⟨hsv, t9, ht9, hp⟩)
          · exact Or.inl hs
          · exact Or.inr ⟨hsv, t9, Or.inr ht9, hp⟩
        · rintro (hs | ⟨hsv, t9, (rfl | ht9), hp⟩)
          · exact Or.inl hs
          · exact absurd hp.1 (by decide)
          · exact Or.inr ⟨hsv, t9, ht9, hp⟩
    · by_cases h2 : startsBang t = true
      · by_cases h3 : strTail t = "all"
        · obtain ⟨st, hf, hr, he⟩ :=
            ih { st0 with
              exclude_subsets := st0.exclude_subsets ∪ VALID_SUBSETS } hrest
          refine ⟨st, ?_, ?_, ?_⟩
          · rw [List.foldlM_cons,
              show processToken st0 t =
                .ok { st0 with
                  exclude_subsets := st0.exclude_subsets ∪ VALID_SUBSETS } from
                by simp [processToken, h1, h2, h3],
              except_bind_ok]
            exact hf
          · intro s
            rw [hr s]
            simp only [List.mem_cons]
            constructor
            · rintro (hs | ⟨hsv, t9, ht9, hp⟩)
              · exact Or.inl hs
              · exact Or.inr ⟨hsv, t9, Or.inr ht9, hp⟩
            · rintro (hs | ⟨hsv, t9, (rfl | ht9), hp⟩)
              · exact Or.inl hs
              · rcases hp with hp | hp
                · exact absurd hp h1
                · rw [hp] at h2
                  rw [valid_not_bang s hsv] at h2
                  simp at h2
              · exact Or.inr ⟨hsv, t9, ht9, hp⟩
          · intro s
            rw [he s]
            simp only [Finset.mem_union, List.mem_cons]
            constructor
            · rintro ((hs | hs) | ⟨hsv, t9, ht9, hp⟩)
              · exact Or.inl hs
              · exact Or.inr ⟨hs, t, Or.inl rfl, h2, Or.inl h3⟩
              · exact Or.inr ⟨hsv, t9, Or.inr ht9, hp⟩
            · rintro (hs | ⟨hsv, t9, (rfl | ht9), hp⟩)
              · exact Or.inl (Or.inl hs)
              · exact Or.inl (Or.inr hsv)
              · exact Or.inr ⟨hsv, t9, ht9, hp⟩
        · have hd : strTail t ∈ VALID_SUBSETS := by
            simp [validToken, h1, h2, h3] at ht
            exact ht
          obtain ⟨st, hf, hr, he⟩ :=
            ih { st0 with
              exclude_subsets := insert (strTail t) st0.exclude_subsets } hrest
          refine ⟨st, ?_, ?_, ?_⟩
          · rw [List.foldlM_cons,
              show processToken st0 t =
                .ok { st0 with
                  exclude_subsets :=
                    insert (strTail t) st0.exclude_subsets } from
                by simp [processToken, h1, h2, h3, hd],
              except_bind_ok]
            exact hf
          · intro s
            rw [hr s]
            simp only [List.mem_cons]
            constructor
            · rintro (hs | ⟨hsv, t9, ht9, hp⟩)
              · exact Or.inl hs
              · exact Or.inr ⟨hsv, t9, Or.inr ht9, hp⟩
            · rintro (hs | ⟨hsv, t9, (rfl | ht9), hp⟩)
              · exact Or.inl hs
              · rcases hp with hp | hp
                · exact absurd hp h1
                · rw [hp] at h2
                  rw [valid_not_bang s hsv] at h2
                  simp at h2
              · exact Or.inr ⟨hsv, t9, ht9, hp⟩
          · intro s
            rw [he s]
            simp only [Finset.mem_insert, List.mem_cons]
            constructor
            · rintro ((hs | hs) | ⟨hsv, t9, ht9, hp⟩)
              · subst hs
                exact Or.inr ⟨hd, t, Or.inl rfl, h2, Or.inr rfl⟩
              · exact Or.inl hs
              · exact Or.inr ⟨hsv, t9, Or.inr ht9, hp⟩
            · rintro (hs | ⟨hsv, t9, (rfl | ht9), hp⟩)
              · exact Or.inl (Or.inr hs)
              · rcases hp.2 with hp2 | hp2
                · exact absurd hp2 h3
                · exact Or.inl (Or.inl hp2.symm)
              · exact Or.inr ⟨hsv, t9, ht9, hp⟩
      · have htv : t ∈ VALID_SUBSETS := by
          simp [validToken, h1, h2] at ht
          exact ht
        obtain ⟨st, hf, hr, he⟩ :=
          ih { st0 with
            runable_subsets := insert t st0.runable_subsets } hrest
        refine ⟨st, ?_, ?_, ?_⟩
        · rw [List.foldlM_cons,
            show processToken st0 t =
              .ok { st0 with
                runable_subsets := insert t st0.runable_subsets } from
              by simp [processToken, h1, h2, htv],
            except_bind_ok]
          exact hf
        · intro s
          rw [hr s]
          simp only [Finset.mem_insert, List.mem_cons]
          constructor
          · rintro ((hs | hs) | ⟨hsv, t9, ht9, hp⟩)
            · refine Or.inr ⟨?_, t, Or.inl rfl, Or.inr hs.symm⟩
              rw [hs]; exact htv
            · exact Or.inl hs
            · exact Or.inr ⟨hsv, t9, Or.inr ht9, hp⟩
          · rintro (hs | ⟨hsv, t9, (rfl | ht9), hp⟩)
            · exact Or.inl (Or.inr hs)
            · rcases hp with hp | hp
              · exact absurd hp h1
              · exact Or.inl (Or.inl hp.symm)
            · exact Or.inr ⟨hsv, t9, ht9, hp⟩
        · intro s
          rw [he s]
          simp only [List.mem_cons]
          constructor
          · rintro (hs | ⟨hsv, t9, ht9, hp⟩)
            · exact Or.inl hs
            · exact Or.inr ⟨hsv, t9, Or.inr ht9, hp⟩
          · rintro (hs | ⟨hsv, t9, (rfl | ht9), hp⟩)
            · exact Or.inl hs
            · exact absurd hp.1 h2
            · exact Or.inr ⟨hsv, t9, ht9, hp⟩

/-- C2 amended: exclusions are applied after inclusions for every valid
non-baseline name — a valid token list containing both `x` and `!x`
resolves with `x` excluded — and `["!all", n]` for a valid non-baseline
name `n` resolves to exactly `{"default"}`.  (For the baseline name
itself the forced baseline add overrides the exclusion, see the
counterexample.) -/
theorem claim_C2 :
    (∀ (tokens : List String) (x : String),
        (∀ t ∈ tokens, validToken t = true) →
        x ∈ VALID_SUBSETS → x ≠ "default" →
        x ∈ tokens → ("!" ++ x) ∈ tokens →
        ∃ R, resolveTokens tokens = .ok R ∧ x ∉ R) ∧
    (∀ n, n ∈ VALID_SUBSETS → n ≠ "default" →
        resolveTokens ["!all", n] = .ok {"default"}) := by
  constructor
  · intro tokens x hv hxv hxd _hx hbang
    obtain ⟨st, hf, hr, he⟩ := foldl_char tokens ⟨∅, ∅⟩ hv
    have hxe : x ∈ st.exclude_subsets := by
      rw [he x]
      exact Or.inr ⟨hxv, "!" ++ x, hbang, (bang_props x hxv).1,
        Or.inr (bang_props x hxv).2⟩
    refine ⟨insert "default"
      ((if st.runable_subsets = ∅ then VALID_SUBSETS
        else st.runable_subsets) \ st.exclude_subsets), ?_, ?_⟩
    · unfold resolveTokens
      rw [hf]
    · intro hmem
      rcases Finset.mem_insert.mp hmem with h | h
      · exact hxd h
      · exact (Finset.mem_sdiff.mp h).2 hxe
  · intro n hn hnd
    rcases valid_mem_cases n hn with h | h | h | h | h <;> subst h
    · exact absurd rfl hnd
    · decide
    · decide
    · decide
    · decide

theorem claim_C2_witness :
    (∃ R, resolveTokens ["hardware", "!hardware"] = .ok R ∧
      "hardware" ∉ R) ∧
    resolveTokens ["!all", "config"] = .ok {"default"} :=
  ⟨claim_C2.1 ["hardware", "!hardware"] "hardware" (by decide) (by decide)
      (by decide) (by decide) (by decide),
    claim_C2.2 "config" (by decide) (by decide)⟩

/-- C3: on a valid token list with no positive token (every token is a
negation) the `included` set is empty after the loop, the resolver
defaults it to every valid name before applying exclusions, and in
particular `["!hardware"]` resolves to all valid names except
"hardware". -/
theorem claim_C3 :
    (∀ tokens : List String,
        (∀ t ∈ tokens, validToken t = true) →
        (∀ t ∈ tokens, startsBang t = true) →
        ∃ st : ResState,
          tokens.foldlM processToken ⟨∅, ∅⟩ = .ok st ∧
          st.runable_subsets = ∅ ∧
          resolveTokens tokens =
            .ok (insert "default" (VALID_SUBSETS \ st.exclude_subsets))) ∧
    resolveTokens ["!hardware"] = .ok (VALID_SUBSETS \ {"hardware"}) := by
  constructor
  · intro tokens hv hneg
    obtain ⟨st, hf, hr, he⟩ := foldl_char tokens ⟨∅, ∅⟩ hv
    have hrun : st.runable_subsets = ∅ := by
      apply Finset.eq_empty_iff_forall_not_mem.mpr
      intro s hs
      rw [hr s] at hs
      rcases hs with h | ⟨hsv, t, ht, hp⟩
      · simp at h
      · rcases hp with hp | hp
        · have := hneg t ht
          rw [hp] at this
          exact absurd this (by decide)
        · have := hneg t ht
          rw [hp, valid_not_bang s hsv] at this
          simp at this
    refine ⟨st, hf, hrun, ?_⟩
    unfold resolveTokens
    rw [hf]
    show Except.ok _ = _
    rw [hrun]
    simp
  · decide

theorem claim_C3_witness :
    ∃ st : ResState,
      (["!hardware"] : List String).foldlM processToken ⟨∅, ∅⟩ = .ok st ∧
      st.runable_subsets = ∅ ∧
      resolveTokens ["!hardware"] =
        .ok (insert "default" (VALID_SUBSETS \ st.exclude_subsets)) :=
  claim_C3.1 ["!hardware"] (by decide) (by decide)

/-- C10: subset resolution is order-insensitive — on valid token lists,
resolving any permutation of a token list yields the same resolved set,
because inclusions and exclusions are accumulated into sets and the
difference and baseline add happen only after the loop. -/
theorem claim_C10 (l1 l2 : List String)
    (hv : ∀ t ∈ l1, validToken t = true) (hp : l1.Perm l2) :
    resolveTokens l1 = resolveTokens l2 := by
  have hv2 : ∀ t ∈ l2, validToken t = true := fun t ht =>
    hv t (hp.mem_iff.mpr ht)
  obtain ⟨st1, hf1, hr1, he1⟩ := foldl_char l1 ⟨∅, ∅⟩ hv
  obtain ⟨st2, hf2, hr2, he2⟩ := foldl_char l2 ⟨∅, ∅⟩ hv2
  have hex : ∀ P : String → Prop, (∃ t ∈ l1, P t) ↔ ∃ t ∈ l2, P t := by
    intro P
    constructor
    · rintro ⟨t, ht, hP⟩
      exact ⟨t, hp.mem_iff.mp ht, hP⟩
    · rintro ⟨t, ht, hP⟩
      exact ⟨t, hp.mem_iff.mpr ht, hP⟩
  have hR : st1.runable_subsets = st2.runable_subsets := by
    ext s
    rw [hr1 s, hr2 s]
    simp only [Finset.not_mem_empty, false_or]
    exact and_congr_right fun _ => hex _
  have hE : st1.exclude_subsets = st2.exclude_subsets := by
    ext s
    rw [he1 s, he2 s]
    simp only [Finset.not_mem_empty, false_or]
    exact and_congr_right fun _ => hex _
  unfold resolveTokens
  rw [hf1, hf2]
  show Except.ok _ = Except.ok _
  rw [hR, hE]

theorem claim_C10_witness :
    resolveTokens ["config", "!hardware"] =
      resolveTokens ["!hardware", "config"] :=
  claim_C10 ["config", "!hardware"] ["!hardware", "config"]
    (by decide) (by decide)

lemma getVal_map_ne (d : List (String × FactValue)) (k k9 : String)
    (v : FactValue) (h : k ≠ k9) :
    getVal k (d.map fun p => if p.1 = k9 then (k9, v) else p) = getVal k d := by
  induction d with
  | nil => rfl
  | cons p rest ih =>
      by_cases hp : p.1 = k9
      · simp [getVal, hp, Ne.symm h, ih]
      · simp [getVal, hp, ih]

lemma getVal_map_eq (d : List (String × FactValue)) (k9 : String)
    (v : FactValue) (h : getVal k9 d ≠ none) :
    getVal k9 (d.map fun p => if p.1 = k9 then (k9, v) else p) = some v := by
  induction d with
  | nil => simp [getVal] at h
  | cons p rest ih =>
      by_cases hp : p.1 = k9
      · simp [getVal, hp]
      · have h9 : getVal k9 rest ≠ none := by simpa [getVal, hp] using h
        simp [getVal, hp, ih h9]

lemma getVal_append (d e : List (String × FactValue)) (k : String) :
    getVal k (d ++ e) = (getVal k d).or (getVal k e) := by
  induction d with
  | nil => simp [getVal]
  | cons p rest ih =>
      by_cases hp : p.1 = k
      · simp [getVal, hp]
      · simp [getVal, hp, ih]

lemma getVal_setKey (d : List (String × FactValue)) (k k9 : String)
    (v : FactValue) :
    getVal k (setKey d k9 v) = if k = k9 then some v else getVal k d := by
  unfold setKey
  by_cases hmem : getVal k9 d ≠ none
  · rw [if_pos hmem]
    by_cases hk : k = k9
    · subst hk
      rw [if_pos rfl]
      exact getVal_map_eq d k v hmem
    · rw [if_neg hk]
      exact getVal_map_ne d k k9 v hk
  · rw [if_neg hmem]
    push_neg at hmem
    rw [getVal_append]
    by_cases hk : k = k9
    · subst hk
      rw [hmem]
      simp [getVal]
    · rw [if_neg hk]
      have h2 : getVal k [(k9, v)] = none := by
        simp only [getVal]
        rw [if_neg (fun hh => hk hh.symm)]
      rw [h2, Option.or_none]

lemma getVal_none_of_notkeys (d : List (String × FactValue)) (k : String)
    (h : k ∉ d.map Prod.fst) : getVal k d = none := by
  induction d with
  | nil => rfl
  | cons p rest ih =>
      simp only [List.map_cons, List.mem_cons] at h
      push_neg at h
      rw [getVal, if_neg (fun hh => h.1 hh.symm), ih h.2]

lemma getVal_dictUpdate_notin (new : List (String × FactValue)) :
    ∀ (d : List (String × FactValue)) (k : String), getVal k new = none →
      getVal k (dictUpdate d new) = getVal k d := by
  induction new with
  | nil => intro d k _; rfl
  | cons p rest ih =>
      intro d k h
      have hp : p.1 ≠ k := by
        intro hh
        simp [getVal, hh] at h
      have hr : getVal k rest = none := by simpa [getVal, hp] using h
      show getVal k (dictUpdate (setKey d p.1 p.2) rest) = getVal k d
      rw [ih (setKey d p.1 p.2) k hr, getVal_setKey,
        if_neg (fun hh => hp hh.symm)]

lemma getVal_dictUpdate (new : List (String × FactValue)) :
    ∀ (d : List (String × FactValue)) (k : String),
      (new.map Prod.fst).Nodup →
      getVal k (dictUpdate d new) = (getVal k new).or (getVal k d) := by
  induction new with
  | nil => intro d k _; simp [dictUpdate, getVal]
  | cons p rest ih =>
      intro d k hnd
      simp only [List.map_cons, List.nodup_cons] at hnd
      show getVal k (dictUpdate (setKey d p.1 p.2) rest) = _
      rw [ih (setKey d p.1 p.2) k hnd.2, getVal_setKey]
      by_cases hk : k = p.1
      · subst hk
        rw [getVal_none_of_notkeys rest p.1 hnd.1]
        simp [getVal]
      · rw [if_neg hk]
        simp only [getVal]
        rw [if_neg (fun hh => hk hh.symm)]

/-- Index of the collector whose partial mapping decides `k` after the
update loop: the last element of the iteration order whose mapping
binds `k`. -/
def lastOwner (m : String → List (String × FactValue)) (k : String) :
    List String → Option String
  | [] => none
  | a :: rest =>
      match lastOwner m k rest with
      | some b => some b
      | none => if (getVal k (m a)).isSome then some a else none

lemma lastOwner_mem (m : String → List (String × FactValue)) (k : String) :
    ∀ (order : List String) (b : String), lastOwner m k order = some b →
      b ∈ order ∧ (getVal k (m b)).isSome := by
  intro order
  induction order with
  | nil => intro b h; exact absurd h (by simp [lastOwner])
  | cons a rest ih =>
      intro b h
      simp only [lastOwner] at h
      cases hr : lastOwner m k rest with
      | some c =>
          rw [hr] at h
          injection h with hcb
          subst hcb
          obtain ⟨hm, ho⟩ := ih c hr
          exact ⟨List.mem_cons_of_mem _ hm, ho⟩
      | none =>
          rw [hr] at h
          by_cases ho : (getVal k (m a)).isSome
          · rw [if_pos ho] at h
            injection h with hb
            subst hb
            exact ⟨by simp, ho⟩
          · rw [if_neg ho] at h
            exact absurd h (by simp)

lemma lastOwner_isSome (m : String → List (String × FactValue)) (k : String) :
    ∀ (order : List String) (a : String), a ∈ order →
      (getVal k (m a)).isSome → (lastOwner m k order).isSome := by
  intro order
  induction order with
  | nil => intro a ha; simp at ha
  | cons c rest ih =>
      intro a ha ho
      simp only [lastOwner]
      cases hr : lastOwner m k rest with
      | some b => simp
      | none =>
          rcases List.mem_cons.mp ha with rfl | hmem
          · rw [if_pos ho]; simp
          · have := ih a hmem ho
            rw [hr] at this
            simp at this

lemma merge_fold_getVal (m : String → List (String × FactValue)) (k : String) :
    ∀ (order : List String) (acc : List (String × FactValue)),
      (∀ a ∈ order, ((m a).map Prod.fst).Nodup) →
      getVal k (order.foldl (fun acc a => dictUpdate acc (m a)) acc) =
        match lastOwner m k order with
        | some a => getVal k (m a)
        | none => getVal k acc := by
  intro order
  induction order with
  | nil => intro acc _; rfl
  | cons a rest ih =>
      intro acc hnd
      show getVal k
        (rest.foldl (fun acc a => dictUpdate acc (m a))
          (dictUpdate acc (m a))) = _
      rw [ih (dictUpdate acc (m a)) (fun x hx => hnd x (by simp [hx]))]
      simp only [lastOwner]
      cases hr : lastOwner m k rest with
      | some b => rfl
      | none =>
          have hDU := getVal_dictUpdate (m a) acc k (hnd a (by simp))
          by_cases ho : (getVal k (m a)).isSome
          · rw [if_pos ho]
            cases hg : getVal k (m a) with
            | none => rw [hg] at ho; simp at ho
            | some v =>
                show getVal k (dictUpdate acc (m a)) = getVal k (m a)
                rw [hDU, hg]
                rfl
          · rw [if_neg ho]
            have hg : getVal k (m a) = none := by
              cases hg : getVal k (m a) with
              | none => rfl
              | some v => rw [hg] at ho; simp at ho
            show getVal k (dictUpdate acc (m a)) = getVal k acc
            rw [hDU, hg, Option.none_or]

lemma getVal_foldl_notin (m : String → List (String × FactValue)) (k : String) :
    ∀ (order : List String) (acc : List (String × FactValue)),
      (∀ a ∈ order, getVal k (m a) = none) →
      getVal k (order.foldl (fun acc a => dictUpdate acc (m a)) acc) =
        getVal k acc := by
  intro order
  induction order with
  | nil => intro acc _; rfl
  | cons a rest ih =>
      intro acc h
      show getVal k
        (rest.foldl (fun acc a => dictUpdate acc (m a))
          (dictUpdate acc (m a))) = _
      rw [ih (dictUpdate acc (m a)) (fun x hx => h x (by simp [hx])),
        getVal_dictUpdate_notin (m a) acc k (h a (by simp))]

lemma str_append_inj (s a b : String) : s ++ a = s ++ b ↔ a = b := by
  constructor
  · intro h
    have hd := congrArg String.data h
    simp only [String.data_append] at hd
    exact String.ext ((List.append_right_inj s.data).mp hd)
  · intro h
    rw [h]

lemma getVal_prefixFacts (l : List (String × FactValue)) (k : String) :
    getVal ("ansible_net_" ++ k) (prefixFacts l) = getVal k l := by
  induction l with
  | nil => rfl
  | cons p rest ih =>
      simp only [prefixFacts, List.map_cons, getVal] at ih ⊢
      by_cases hk : p.1 = k
      · rw [if_pos (by rw [hk]), if_pos hk]
      · rw [if_neg (fun hh => hk ((str_append_inj _ _ _).mp hh)),
          if_neg hk, ih]

/-- C4 amended: for a fixed iteration order of the resolved collector set
the merged output is a function of the order and the partial mappings,
and the portion of the final mapping other than the `gather_subset`
entry does not depend on which enumeration of the set is used, provided
no two collectors bind the same fact key (which holds for this module's
collectors); only the reported `gather_subset` list follows the
enumeration order. -/
theorem claim_C4 (order1 order2 : List String)
    (m : String → List (String × FactValue)) (k : String)
    (hp : order1.Perm order2)
    (hnd : ∀ a ∈ order1, ((m a).map Prod.fst).Nodup)
    (huniq : ∀ a ∈ order1, ∀ b ∈ order1,
      (getVal k (m a)).isSome → (getVal k (m b)).isSome → a = b)
    (hk : k ≠ "gather_subset") :
    getVal k (mergeFacts order1 m) = getVal k (mergeFacts order2 m) := by
  have hnd2 : ∀ a ∈ order2, ((m a).map Prod.fst).Nodup := fun a ha =>
    hnd a (hp.mem_iff.mpr ha)
  have hacc1 : getVal k
      [("gather_subset", FactValue.strList order1)] = none := by
    simp only [getVal]
    rw [if_neg (fun hh => hk hh.symm)]
  have hacc2 : getVal k
      [("gather_subset", FactValue.strList order2)] = none := by
    simp only [getVal]
    rw [if_neg (fun hh => hk hh.symm)]
  unfold mergeFacts
  rw [merge_fold_getVal m k order1 _ hnd, merge_fold_getVal m k order2 _ hnd2]
  cases h1 : lastOwner m k order1 with
  | none =>
      cases h2 : lastOwner m k order2 with
      | none => rw [hacc1, hacc2]
      | some b =>
          obtain ⟨hb, ho⟩ := lastOwner_mem m k order2 b h2
          have hs := lastOwner_isSome m k order1 b (hp.mem_iff.mpr hb) ho
          rw [h1] at hs
          simp at hs
  | some b1 =>
      obtain ⟨hb1, ho1⟩ := lastOwner_mem m k order1 b1 h1
      cases h2 : lastOwner m k order2 with
      | none =>
          have hs := lastOwner_isSome m k order2 b1 (hp.mem_iff.mp hb1) ho1
          rw [h2] at hs
          simp at hs
      | some b2 =>
          obtain ⟨hb2, ho2⟩ := lastOwner_mem m k order2 b2 h2
          rw [huniq b1 hb1 b2 (hp.mem_iff.mpr hb2) ho1 ho2]

/-- Collector mapping used to instantiate the amended C4 theorem. -/
def mW : String → List (String × FactValue) := fun a =>
  if a = "default" then [("version", FactValue.str "9.1(7)29")]
  else [("filesystems", FactValue.strList [])]

theorem claim_C4_witness :
    getVal "version" (mergeFacts ["default", "hardware"] mW) =
      getVal "version" (mergeFacts ["hardware", "default"] mW) :=
  claim_C4 ["default", "hardware"] ["hardware", "default"] mW "version"
    (by decide) (by decide) (by decide) (by decide)

/-- C8: the returned payload is the flat fact mapping in which every key
carries the "ansible_net_" prefix, the mapping contains the
`ansible_net_gather_subset` entry reporting the collectors that ran (in
iteration order), and the always-present `warnings` list (empty in this
module, which never appends to it). -/
theorem claim_C8 (order : List String)
    (m : String → List (String × FactValue))
    (hg : ∀ a ∈ order, getVal "gather_subset" (m a) = none) :
    (∀ kk ∈ (buildResult order m).ansible_facts.map Prod.fst,
      ∃ k0, kk = "ansible_net_" ++ k0) ∧
    getVal "ansible_net_gather_subset" (buildResult order m).ansible_facts =
      some (FactValue.strList order) ∧
    (buildResult order m).warnings = [] := by
  refine ⟨?_, ?_, rfl⟩
  · intro kk hkk
    unfold buildResult prefixFacts at hkk
    simp only [List.map_map, List.mem_map] at hkk
    obtain ⟨p, _, rfl⟩ := hkk
    exact ⟨p.1, rfl⟩
  · unfold buildResult
    rw [show ("ansible_net_gather_subset" : String) =
        "ansible_net_" ++ "gather_subset" from rfl,
      getVal_prefixFacts]
    unfold mergeFacts
    rw [getVal_foldl_notin m "gather_subset" order _ hg]
    simp [getVal]

theorem claim_C8_witness :
    (∀ kk ∈ (buildResult ["default"] mExEmpty).ansible_facts.map Prod.fst,
      ∃ k0, kk = "ansible_net_" ++ k0) ∧
    getVal "ansible_net_gather_subset"
        (buildResult ["default"] mExEmpty).ansible_facts =
      some (FactValue.strList ["default"]) ∧
    (buildResult ["default"] mExEmpty).warnings = [] :=
  claim_C8 ["default"] mExEmpty (by decide)
